import Mathlib

/-!
Shallow embedding of the host-embedding boundary layer (`auxlib.go`) of the
gopher-lua runtime: argument accessors, error formatting, dotted-path table
resolution, module registration, metamethod dispatch and protected execution.

Scalar conventions: `LNumber` is a floating-point scalar in the source; the
properties below depend only on a value's dynamic kind, never on numeric
arithmetic, so its payload is modelled as `Int`.  Reference values (tables,
functions, userdata, threads) are heap identifiers; two reference values are
identical exactly when their identifiers coincide, matching Go pointer
equality.  Raised errors (`RaiseError`, `ArgError`, `TypeError`) abruptly
unwind in the source; fallible operations are therefore modelled in
`Except LuaError`.
-/

namespace GopherLua

/-- The dynamic kinds of script values (`LValueType` in the source). -/
inductive LValueType where
  | nil
  | bool
  | number
  | string
  | table
  | func
  | userdata
  | thread
deriving DecidableEq, Repr

/-- `LValueType.String()`: the kind names used in error messages. -/
def LValueType.str : LValueType → String
  | .nil => "nil"
  | .bool => "boolean"
  | .number => "number"
  | .string => "string"
  | .table => "table"
  | .func => "function"
  | .userdata => "userdata"
  | .thread => "thread"

/-- Script values (`LValue` in the source): a closed tagged union.
Reference kinds carry a heap identifier. -/
inductive LValue where
  | nil
  | bool (b : Bool)
  | number (x : Int)
  | str (s : String)
  | table (id : Nat)
  | func (id : Nat)
  | userdata (id : Nat)
  | thread (id : Nat)
deriving DecidableEq, Repr

/-- `LValue.Type()`: the dynamic kind of a value. -/
def LValue.typeOf : LValue → LValueType
  | .nil => .nil
  | .bool _ => .bool
  | .number _ => .number
  | .str _ => .string
  | .table _ => .table
  | .func _ => .func
  | .userdata _ => .userdata
  | .thread _ => .thread

/-- A heap table object: its hash part as an association list, plus an
optional metatable (a table identifier). -/
structure TableObj where
  entries : List (LValue × LValue)
  meta : Option Nat
deriving DecidableEq, Repr

/-- Raw lookup in a table's hash part: the value bound to the first
occurrence of the key, Nil when the key is absent. -/
def rawGetList (es : List (LValue × LValue)) (k : LValue) : LValue :=
  match es with
  | [] => .nil
  | (k', v) :: rest => if k' = k then v else rawGetList rest k

/-- Raw update of a table's hash part: replace the binding of `k`, or append
a fresh binding when `k` is absent. -/
def rawSetList (es : List (LValue × LValue)) (k v : LValue) : List (LValue × LValue) :=
  match es with
  | [] => [(k, v)]
  | (k', v') :: rest => if k' = k then (k, v) :: rest else (k', v') :: rawSetList rest k v

/-- A compiled chunk prototype: debug source name and the source line of each
instruction (`FunctionProto.SourceName` / `DbgSourcePositions`). -/
structure Proto where
  sourceName : String
  dbgSourcePositions : List Nat
deriving DecidableEq, Repr

/-- A call-stack frame: the running function's prototype (`none` for a
native/host Go function, whose `Fn.Proto` is a nil pointer) and its program
counter. -/
structure Frame where
  proto : Option Proto
  pc : Nat
deriving DecidableEq, Repr

/-- The runtime state visible to this layer: the table heap (identifier =
index), a fresh-identifier counter for function objects, the current call's
argument stack (1-based positions), the current frame's function name (what
`frameFuncName(ls.currentFrame)` yields), the identifiers of the registry
and globals tables, and the call stack (index = level, 0 innermost). -/
structure LState where
  tables : List TableObj
  nextFn : Nat
  args : List LValue
  fname : String
  registry : Nat
  globals : Nat
  frames : List Frame
deriving DecidableEq, Repr

/-- A raised script-visible error carrying its formatted message; raising
unwinds to the nearest protected boundary, so computations that may raise
live in `Except LuaError`. -/
inductive LuaError where
  | raised (msg : String)
deriving DecidableEq, Repr

/-- `ls.Get(n)` for a positive stack position: the argument at 1-based
position `n`, or Nil beyond the top.  Pseudo-indices (registry, globals) are
modelled by the dedicated accessors below. -/
def LState.get (ls : LState) (n : Nat) : LValue :=
  if n = 0 then .nil else ls.args.getD (n - 1) .nil

/-- `ls.GetTop()`: the number of arguments of the current call. -/
def LState.getTop (ls : LState) : Nat := ls.args.length

/-- Modelled from the spec: the raw table primitive (§6b, get bypassing
metamethods), reading table `t`'s hash part; absent tables read as Nil. -/
def LState.rawGet (ls : LState) (t : Nat) (k : LValue) : LValue :=
  match ls.tables[t]? with
  | some o => rawGetList o.entries k
  | none => .nil

/-- Modelled from the spec: the raw table primitive (§6b, set bypassing
metamethods), writing into table `t`'s hash part. -/
def LState.rawSet (ls : LState) (t : Nat) (k v : LValue) : LState :=
  match ls.tables[t]? with
  | some o => { ls with tables := ls.tables.set t ⟨rawSetList o.entries k v, o.meta⟩ }
  | none => ls

/-- `ls.CreateTable(acap, hcap)`: allocates a fresh empty table and returns
its identifier; the capacity hints size only the backing storage and are not
observable, so they are dropped. -/
def LState.createTable (ls : LState) : LState × Nat :=
  ({ ls with tables := ls.tables ++ [⟨[], none⟩] }, ls.tables.length)

/-- Modelled from the spec: the function-construction primitive (§6d) —
`ls.NewFunction(fn)` wraps a native callback as a fresh function object, a
new heap value on every call. -/
def LState.newFunction (ls : LState) (_fn : Nat) : LState × LValue :=
  ({ ls with nextFn := ls.nextFn + 1 }, .func ls.nextFn)

/-- Modelled from the spec: field read on the registry/module bookkeeping
tables; those tables carry no metatables, so `GetField` coincides with the
raw primitive there, and yields Nil on a non-table. -/
def LState.getField (ls : LState) (obj : LValue) (k : String) : LValue :=
  match obj with
  | .table t => ls.rawGet t (.str k)
  | _ => .nil

/-- Modelled from the spec: field write on the registry/module bookkeeping
tables (no metatables involved); a non-table target is left untouched. -/
def LState.setField (ls : LState) (obj : LValue) (k : String) (v : LValue) : LState :=
  match obj with
  | .table t => ls.rawSet t (.str k) v
  | _ => ls

/-- Modelled from the spec: metafield lookup (§4.5) — the named field of the
value's metatable, Nil when there is no metatable or no such field.  Only
table values carry individual metatables in this development; type-wide
metatables of other kinds are outside the studied claims. -/
def LState.metaOp1 (ls : LState) (obj : LValue) (event : String) : LValue :=
  match obj with
  | .table t =>
    match ls.tables[t]? with
    | some o =>
      match o.meta with
      | some m => ls.rawGet m (.str event)
      | none => .nil
    | none => .nil
  | _ => .nil

/-- `ls.ArgError(n, message)`'s formatted message:
`bad argument #<n> to <fname> (<message>)`. -/
def LState.argErrorMsg (ls : LState) (n : Nat) (message : String) : String :=
  "bad argument #" ++ toString n ++ " to " ++ ls.fname ++ " (" ++ message ++ ")"

/-- `ls.TypeError(n, typ)`'s formatted message: an `ArgError` with detail
`<expected> expected, got <actual>`. -/
def LState.typeErrorMsg (ls : LState) (n : Nat) (typ : LValueType) : String :=
  ls.argErrorMsg n (typ.str ++ " expected, got " ++ (ls.get n).typeOf.str)

/-- `CheckAny(n)`: the value at position `n`, or an `ArgError` with detail
`value expected` when `n` exceeds the top of the argument stack. -/
def LState.CheckAny (ls : LState) (n : Nat) : Except LuaError LValue :=
  if n > ls.getTop then .error (.raised (ls.argErrorMsg n "value expected"))
  else .ok (ls.get n)

/-- `CheckString(n)`: the argument as a string, or a `TypeError` naming the
string kind when its dynamic kind differs. -/
def LState.CheckString (ls : LState) (n : Nat) : Except LuaError String :=
  match ls.get n with
  | .str s => .ok s
  | _ => .error (.raised (ls.typeErrorMsg n .string))

/-- The option-scanning loop of `CheckOption` (`for i, v := range options`):
the index of the first option equal to `str`, counting from `i`. -/
def optionIndex (str : String) : List String → Nat → Option Nat
  | [], _ => none
  | v :: rest, i => if v = str then some i else optionIndex str rest (i + 1)

/-- `CheckOption(n, options)`: check the argument as a string, then return
the index of its first match in `options`, or raise an `ArgError` listing
the options joined by commas. -/
def LState.CheckOption (ls : LState) (n : Nat) (options : List String) : Except LuaError Nat :=
  match ls.CheckString n with
  | .error e => .error e
  | .ok str =>
    match optionIndex str options 0 with
    | some i => .ok i
    | none =>
      .error (.raised (ls.argErrorMsg n
        ("invalid option: " ++ str ++ " (must be one of " ++ String.intercalate "," options ++ ")")))

/-- `OptInt(n, d)`: `d` on Nil, the number's integral conversion on a
number, a `TypeError` otherwise. -/
def LState.OptInt (ls : LState) (n : Nat) (d : Int) : Except LuaError Int :=
  let v := ls.get n
  if v = .nil then .ok d
  else
    match v with
    | .number x => .ok x
    | _ => .error (.raised (ls.typeErrorMsg n .number))

/-- `OptInt64(n, d)`: as `OptInt` with a 64-bit result; both integral types
are modelled by `Int`. -/
def LState.OptInt64 (ls : LState) (n : Nat) (d : Int) : Except LuaError Int :=
  let v := ls.get n
  if v = .nil then .ok d
  else
    match v with
    | .number x => .ok x
    | _ => .error (.raised (ls.typeErrorMsg n .number))

/-- `OptNumber(n, d)`: `d` on Nil, the number itself on a number, a
`TypeError` otherwise. -/
def LState.OptNumber (ls : LState) (n : Nat) (d : Int) : Except LuaError Int :=
  let v := ls.get n
  if v = .nil then .ok d
  else
    match v with
    | .number x => .ok x
    | _ => .error (.raised (ls.typeErrorMsg n .number))

/-- `OptString(n, d)`: `d` on Nil, the string itself on a string, a
`TypeError` otherwise. -/
def LState.OptString (ls : LState) (n : Nat) (d : String) : Except LuaError String :=
  let v := ls.get n
  if v = .nil then .ok d
  else
    match v with
    | .str s => .ok s
    | _ => .error (.raised (ls.typeErrorMsg n .string))

/-- `OptBool(n, d)`: `d` on Nil, the boolean itself on a boolean, a
`TypeError` otherwise. -/
def LState.OptBool (ls : LState) (n : Nat) (d : Bool) : Except LuaError Bool :=
  let v := ls.get n
  if v = .nil then .ok d
  else
    match v with
    | .bool b => .ok b
    | _ => .error (.raised (ls.typeErrorMsg n .bool))

/-- `OptTable(n, d)`: `d` on Nil, the table's identifier on a table, a
`TypeError` otherwise; the default is an optional identifier since the Go
default is a pointer that may be nil. -/
def LState.OptTable (ls : LState) (n : Nat) (d : Option Nat) : Except LuaError (Option Nat) :=
  let v := ls.get n
  if v = .nil then .ok d
  else
    match v with
    | .table t => .ok (some t)
    | _ => .error (.raised (ls.typeErrorMsg n .table))

/-- `OptFunction(n, d)`: `d` on Nil, the function's identifier on a
function, a `TypeError` otherwise. -/
def LState.OptFunction (ls : LState) (n : Nat) (d : Option Nat) : Except LuaError (Option Nat) :=
  let v := ls.get n
  if v = .nil then .ok d
  else
    match v with
    | .func f => .ok (some f)
    | _ => .error (.raised (ls.typeErrorMsg n .func))

/-- `OptUserData(n, d)`: `d` on Nil, the userdata's identifier on a
userdata, a `TypeError` otherwise. -/
def LState.OptUserData (ls : LState) (n : Nat) (d : Option Nat) : Except LuaError (Option Nat) :=
  let v := ls.get n
  if v = .nil then .ok d
  else
    match v with
    | .userdata u => .ok (some u)
    | _ => .error (.raised (ls.typeErrorMsg n .userdata))

/-- `Where(level)`: locate the frame `level` levels up from the innermost
(`GetStack`, modelled from the spec's call-stack introspection collaborator
§6a: it fails exactly when the stack is not that deep); with no such frame
the result is empty, otherwise `<sourceName>:<line>:` where a native frame
(nil prototype) keeps the default source name `[G]` and an empty line part.
The source indexes `DbgSourcePositions[cf.Pc-1]`; the in-bounds read is
modelled with default 0, and the studied frames stay in bounds. -/
def LState.Where (ls : LState) (level : Nat) : String :=
  match ls.frames[level]? with
  | none => ""
  | some cf =>
    let sourcename :=
      match cf.proto with
      | none => "[G]"
      | some proto => proto.sourceName
    let line :=
      match cf.proto with
      | none => ""
      | some proto => toString (proto.dbgSourcePositions.getD (cf.pc - 1) 0) ++ ":"
    sourcename ++ ":" ++ line

/-- `strings.Split(n, ".")` on the character list: maximal dot-free runs,
empties kept (`Split("", ".")` is `[""]`, like `splitOn`). -/
def splitDotsAux : List Char → List (List Char)
  | [] => [[]]
  | c :: rest =>
    if c = '.' then [] :: splitDotsAux rest
    else
      match splitDotsAux rest with
      | [] => [[c]]
      | h :: t => (c :: h) :: t

/-- The dotted-path segments of a module path, as strings. -/
def splitDots (s : String) : List String :=
  (splitDotsAux s.toList).map (fun cs => String.mk cs)

/-- The walk of `FindTable` over the remaining path segments: Nil on a
non-table, create-and-descend on a missing segment, Nil (without writing)
on an existing non-table segment, descend otherwise. -/
def LState.findTableAux (ls : LState) (cur : LValue) : List String → LState × LValue
  | [] => (ls, cur)
  | name :: rest =>
    match cur with
    | .table t =>
      if ls.rawGet t (.str name) = .nil then
        ((ls.createTable.1.rawSet t (.str name) (.table ls.createTable.2)).findTableAux
          (.table ls.createTable.2) rest)
      else if (ls.rawGet t (.str name)).typeOf = .table then
        ls.findTableAux (ls.rawGet t (.str name)) rest
      else (ls, .nil)
    | _ => (ls, .nil)

/-- `FindTable(obj, n, size)`: split `n` on dots and walk from `obj`,
creating missing segment tables; the capacity hint `size` only sizes the
created tables' storage and is dropped by `createTable`. -/
def LState.FindTable (ls : LState) (obj : LValue) (n : String) (_size : Nat) : LState × LValue :=
  ls.findTableAux obj (splitDots n)

/-- The population loop of `RegisterModule`: wrap each native callback and
raw-set it into table `tid` under its name. -/
def LState.installFuncs (ls : LState) (tid : Nat) : List (String × Nat) → LState
  | [] => ls
  | (fname, fn) :: rest =>
    (((ls.newFunction fn).1.rawSet tid (.str fname) (ls.newFunction fn).2)).installFuncs tid rest

/-- `RegisterModule(name, funcs)`: find the `_LOADED` table in the registry;
if `name` is not yet bound to a table there, resolve `name` inside the
globals, raise `name conflict for module(<name>)` when that resolution does
not yield a table, otherwise install the functions, record the module under
`_LOADED` and return it; an already-recorded module table is returned as is.
The Go `map` iteration order is arbitrary, so `funcs` is an association
list; `ls.Get(RegistryIndex)` / `ls.Get(GlobalsIndex)` are the pseudo-index
reads of the registry and globals tables. -/
def LState.RegisterModule (ls : LState) (name : String) (funcs : List (String × Nat)) :
    Except LuaError (LState × LValue) :=
  let r := ls.FindTable (.table ls.registry) "_LOADED" 1
  if (r.1.getField r.2 name).typeOf ≠ .table then
    let r2 := r.1.FindTable (.table r.1.globals) name funcs.length
    match r2.2 with
    | .table tid =>
      .ok ((r2.1.installFuncs tid funcs).setField r.2 name (.table tid), .table tid)
    | _ => .error (.raised ("name conflict for module(" ++ name ++ ")"))
  else .ok (r.1, r.1.getField r.2 name)

/-- Modelled from the spec: the normal-call collaborator — invoking a
function object with one argument for one result (`Call(1, 1)` after pushing
the callee and the argument); the invocation may mutate the state or raise. -/
def CallOracle : Type :=
  LState → Nat → LValue → Except LuaError (LState × LValue)

/-- `CallMeta(obj, event)`: look up the metafield; when it is a function
value, call it with `obj` as sole argument and return the first result,
otherwise Nil without any invocation. -/
def LState.CallMeta (ls : LState) (call : CallOracle) (obj : LValue) (event : String) :
    Except LuaError (LState × LValue) :=
  let op := ls.metaOp1 obj event
  match op with
  | .func f => call ls f obj
  | _ => .ok (ls, .nil)

/-- The classes of `ApiError` returned by the load/do operations. -/
inductive ApiErrorKind where
  | syntaxError
  | fileError
  | runError
deriving DecidableEq, Repr

/-- An ordinary error value returned (not raised) by the load/do
operations. -/
structure ApiError where
  kind : ApiErrorKind
  message : String
deriving DecidableEq, Repr

/-- Modelled from the spec: the compiler collaborator behind `LoadString` —
source text either compiles to a chunk (a function identifier) or reports a
`CompileError`; compilation executes no part of the chunk. -/
def Compiler : Type :=
  String → Except ApiError Nat

/-- Modelled from the spec: running a compiled chunk — it may mutate the
state and may raise a script runtime error; the state reached when the
error was raised is kept, since a protected call is an error boundary, not
a transaction. -/
def Executor : Type :=
  LState → Nat → LState × Option LuaError

/-- Modelled from the spec: the protected-call primitive (§6c) —
`PCall(0, MultRet, nil)` runs the chunk and converts a raised script error
into an ordinary returned `ApiError` instead of propagating it. -/
def pcallRun (exec : Executor) (ls : LState) (fn : Nat) : LState × Option ApiError :=
  match exec ls fn with
  | (ls2, some (.raised m)) => (ls2, some ⟨.runError, m⟩)
  | (ls2, none) => (ls2, none)

/-- `DoString(source)`: compile with `LoadString`; a compile error is
returned directly (nothing is pushed or invoked), otherwise the chunk is
pushed and run under `PCall`.  `DoFile` differs only in the collaborator
producing the chunk. -/
def LState.DoString (ls : LState) (comp : Compiler) (exec : Executor) (source : String) :
    LState × Option ApiError :=
  match comp source with
  | .error e => (ls, some e)
  | .ok fn => pcallRun exec ls fn

/-! ### Concrete states and collaborators used by the closed examples -/

/-- A concrete call context: a string at position 1, a number at position 2,
nothing at position 3 and beyond. -/
def stArgs : LState :=
  ⟨[], 0, [.str "a", .number 3], "f", 0, 0, []⟩

/-- A call stack with a native/host frame at level 0 (nil prototype) and a
script frame at level 1 (source `test.lua`, pc 2, line table `[10,20,30]`). -/
def stWhere : LState :=
  ⟨[], 0, [], "f", 0, 0, [⟨none, 1⟩, ⟨some ⟨"test.lua", [10, 20, 30]⟩, 2⟩]⟩

/-- A heap holding one empty root table (identifier 0). -/
def stFind : LState :=
  ⟨[⟨[], none⟩], 0, [], "f", 0, 0, []⟩

/-- The create-only zone: every table with identifier at least `N` binds
only Nil or tables whose identifiers are again at least `N`. -/
def zoneInv (ls : LState) (N : Nat) : Prop :=
  ∀ u k, N ≤ u → ls.rawGet u k = .nil ∨ ∃ w, ls.rawGet u k = .table w ∧ N ≤ w

/-- A root table whose segment `x` already holds a non-table value. -/
def stFindDead : LState :=
  ⟨[⟨[(.str "x", .number 5)], none⟩], 0, [], "f", 0, 0, []⟩

/-- A heap where table 0 has table 1 as metatable, which binds the
`__tostring` event to the function object 7. -/
def stMeta : LState :=
  ⟨[⟨[], some 1⟩, ⟨[(.str "__tostring", .func 7)], none⟩], 0, [], "f", 0, 0, []⟩

/-- A call collaborator whose invocations return the string `"S"`. -/
def callConst : CallOracle := fun s _ _ => .ok (s, .str "S")

/-- A compiler collaborator that rejects every chunk. -/
def compReject : Compiler := fun _ => .error ⟨.syntaxError, "parse error"⟩

/-- A compiler collaborator that accepts every chunk as chunk 0. -/
def compAccept : Compiler := fun _ => .ok 0

/-- An executor collaborator that raises the script error `boom`. -/
def execBoom : Executor := fun s _ => (s, some (.raised "boom"))

/-- A fresh runtime: empty registry table (identifier 0) and empty globals
table (identifier 1). -/
def stReg : LState :=
  ⟨[⟨[], none⟩, ⟨[], none⟩], 0, [], "f", 0, 1, []⟩

/-- `stReg` after `RegisterModule`'s two path resolutions: `_LOADED` is
table 2 and the module table for `foo` is table 3, still empty. -/
def stRegMid : LState :=
  ⟨[⟨[(.str "_LOADED", .table 2)], none⟩, ⟨[(.str "foo", .table 3)], none⟩, ⟨[], none⟩,
    ⟨[], none⟩], 0, [], "f", 0, 1, []⟩

/-- A runtime whose globals table (identifier 1) already binds `foo` to the
non-table value `g`; the registry table (identifier 0) is empty. -/
def stConflictG (g : LValue) : LState :=
  ⟨[⟨[], none⟩, ⟨[(.str "foo", g)], none⟩], 0, [], "f", 0, 1, []⟩

/-- `stConflictG g` after the `_LOADED` resolution created table 2. -/
def stConflictMid (g : LValue) : LState :=
  ⟨[⟨[(.str "_LOADED", .table 2)], none⟩, ⟨[(.str "foo", g)], none⟩, ⟨[], none⟩],
    0, [], "f", 0, 1, []⟩

/-! ### Raw table primitive lemmas -/

theorem rawGetList_rawSetList_self (es : List (LValue × LValue)) (k v : LValue) :
    rawGetList (rawSetList es k v) k = v := by
  induction es with
  | nil => simp [rawSetList, rawGetList]
  | cons p rest ih =>
    obtain ⟨k', v'⟩ := p
    by_cases h : k' = k <;> simp [rawSetList, rawGetList, h, ih]

theorem rawGetList_rawSetList_ne (es : List (LValue × LValue)) (k v k₂ : LValue)
    (h : k₂ ≠ k) : rawGetList (rawSetList es k v) k₂ = rawGetList es k₂ := by
  have hne : ¬ k = k₂ := fun he => h he.symm
  induction es with
  | nil => simp [rawSetList, rawGetList, hne]
  | cons p rest ih =>
    obtain ⟨k', v'⟩ := p
    by_cases hk : k' = k
    · subst hk
      simp [rawSetList, rawGetList, hne]
    · simp [rawSetList, rawGetList, hk, ih]

theorem LState.rawGet_eq_of_none (ls : LState) (t : Nat) (k : LValue)
    (h : ls.tables[t]? = none) : ls.rawGet t k = .nil := by
  unfold LState.rawGet
  rw [h]

theorem LState.rawGet_eq_of_some (ls : LState) (t : Nat) (k : LValue) (o : TableObj)
    (h : ls.tables[t]? = some o) : ls.rawGet t k = rawGetList o.entries k := by
  unfold LState.rawGet
  rw [h]

theorem LState.rawSet_eq_of_none (ls : LState) (t : Nat) (k v : LValue)
    (h : ls.tables[t]? = none) : ls.rawSet t k v = ls := by
  unfold LState.rawSet
  rw [h]

theorem LState.rawSet_eq_of_some (ls : LState) (t : Nat) (k v : LValue) (o : TableObj)
    (h : ls.tables[t]? = some o) :
    ls.rawSet t k v = { ls with tables := ls.tables.set t ⟨rawSetList o.entries k v, o.meta⟩ } := by
  unfold LState.rawSet
  rw [h]

theorem getElem?_some_lt {α : Type} (l : List α) (i : Nat) (a : α)
    (h : l[i]? = some a) : i < l.length := by
  by_contra hc
  push_neg at hc
  rw [List.getElem?_eq_none hc] at h
  exact Option.noConfusion h

theorem LState.rawSet_tables_length (ls : LState) (t : Nat) (k v : LValue) :
    (ls.rawSet t k v).tables.length = ls.tables.length := by
  cases ho : ls.tables[t]? with
  | none => rw [ls.rawSet_eq_of_none t k v ho]
  | some o => rw [ls.rawSet_eq_of_some t k v o ho]; simp

theorem LState.tables_rawSet_ne (ls : LState) (t : Nat) (k v : LValue) (t₂ : Nat)
    (h : t₂ ≠ t) : (ls.rawSet t k v).tables[t₂]? = ls.tables[t₂]? := by
  cases ho : ls.tables[t]? with
  | none => rw [ls.rawSet_eq_of_none t k v ho]
  | some o =>
    rw [ls.rawSet_eq_of_some t k v o ho]
    exact List.getElem?_set_ne (fun he => h he.symm)

theorem LState.rawGet_rawSet_self (ls : LState) (t : Nat) (k v : LValue) (o : TableObj)
    (h : ls.tables[t]? = some o) : (ls.rawSet t k v).rawGet t k = v := by
  have hlt : t < ls.tables.length := getElem?_some_lt _ _ _ h
  rw [ls.rawSet_eq_of_some t k v o h]
  rw [LState.rawGet_eq_of_some _ t k ⟨rawSetList o.entries k v, o.meta⟩
    (by simpa using List.getElem?_set_eq_of_lt _ hlt)]
  exact rawGetList_rawSetList_self o.entries k v

theorem LState.rawGet_rawSet_ne_tbl (ls : LState) (t : Nat) (k v : LValue) (t₂ : Nat)
    (k₂ : LValue) (h : t₂ ≠ t) :
    (ls.rawSet t k v).rawGet t₂ k₂ = ls.rawGet t₂ k₂ := by
  unfold LState.rawGet
  rw [ls.tables_rawSet_ne t k v t₂ h]

theorem LState.rawGet_rawSet_ne_key (ls : LState) (t : Nat) (k v k₂ : LValue)
    (h : k₂ ≠ k) : (ls.rawSet t k v).rawGet t k₂ = ls.rawGet t k₂ := by
  cases ho : ls.tables[t]? with
  | none => rw [ls.rawSet_eq_of_none t k v ho]
  | some o =>
    have hlt : t < ls.tables.length := getElem?_some_lt _ _ _ ho
    rw [ls.rawSet_eq_of_some t k v o ho]
    rw [LState.rawGet_eq_of_some _ t k₂ ⟨rawSetList o.entries k v, o.meta⟩
      (by simpa using List.getElem?_set_eq_of_lt _ hlt)]
    rw [ls.rawGet_eq_of_some t k₂ o ho]
    exact rawGetList_rawSetList_ne o.entries k v k₂ h

theorem LState.rawSet_fields (ls : LState) (t : Nat) (k v : LValue) :
    (ls.rawSet t k v).nextFn = ls.nextFn ∧ (ls.rawSet t k v).args = ls.args ∧
    (ls.rawSet t k v).fname = ls.fname ∧ (ls.rawSet t k v).registry = ls.registry ∧
    (ls.rawSet t k v).globals = ls.globals ∧ (ls.rawSet t k v).frames = ls.frames := by
  cases ho : ls.tables[t]? with
  | none => rw [ls.rawSet_eq_of_none t k v ho]; exact ⟨rfl, rfl, rfl, rfl, rfl, rfl⟩
  | some o => rw [ls.rawSet_eq_of_some t k v o ho]; exact ⟨rfl, rfl, rfl, rfl, rfl, rfl⟩

/-! ### C1: the optional accessors -/

/-- C1: each optional accessor returns the caller's default exactly on an
absent or Nil argument — and on a present value of any kind other than the
expected one it raises the TypeMismatch error, never returning the
default. -/
theorem Opt_accessors_default_only_on_nil (ls : LState) (n : Nat) :
    ((ls.get n = .nil → ∀ d, ls.OptInt n d = .ok d) ∧
     (ls.get n ≠ .nil → (ls.get n).typeOf ≠ .number →
       ∀ d, ls.OptInt n d = .error (.raised (ls.typeErrorMsg n .number)))) ∧
    ((ls.get n = .nil → ∀ d, ls.OptInt64 n d = .ok d) ∧
     (ls.get n ≠ .nil → (ls.get n).typeOf ≠ .number →
       ∀ d, ls.OptInt64 n d = .error (.raised (ls.typeErrorMsg n .number)))) ∧
    ((ls.get n = .nil → ∀ d, ls.OptNumber n d = .ok d) ∧
     (ls.get n ≠ .nil → (ls.get n).typeOf ≠ .number →
       ∀ d, ls.OptNumber n d = .error (.raised (ls.typeErrorMsg n .number)))) ∧
    ((ls.get n = .nil → ∀ d, ls.OptString n d = .ok d) ∧
     (ls.get n ≠ .nil → (ls.get n).typeOf ≠ .string →
       ∀ d, ls.OptString n d = .error (.raised (ls.typeErrorMsg n .string)))) ∧
    ((ls.get n = .nil → ∀ d, ls.OptBool n d = .ok d) ∧
     (ls.get n ≠ .nil → (ls.get n).typeOf ≠ .bool →
       ∀ d, ls.OptBool n d = .error (.raised (ls.typeErrorMsg n .bool)))) ∧
    ((ls.get n = .nil → ∀ d, ls.OptTable n d = .ok d) ∧
     (ls.get n ≠ .nil → (ls.get n).typeOf ≠ .table →
       ∀ d, ls.OptTable n d = .error (.raised (ls.typeErrorMsg n .table)))) ∧
    ((ls.get n = .nil → ∀ d, ls.OptFunction n d = .ok d) ∧
     (ls.get n ≠ .nil → (ls.get n).typeOf ≠ .func →
       ∀ d, ls.OptFunction n d = .error (.raised (ls.typeErrorMsg n .func)))) ∧
    ((ls.get n = .nil → ∀ d, ls.OptUserData n d = .ok d) ∧
     (ls.get n ≠ .nil → (ls.get n).typeOf ≠ .userdata →
       ∀ d, ls.OptUserData n d = .error (.raised (ls.typeErrorMsg n .userdata)))) := by
  refine ⟨⟨?_, ?_⟩, ⟨?_, ?_⟩, ⟨?_, ?_⟩, ⟨?_, ?_⟩, ⟨?_, ?_⟩, ⟨?_, ?_⟩, ⟨?_, ?_⟩, ⟨?_, ?_⟩⟩
  all_goals
    first
    | (intro h d
       simp [LState.OptInt, LState.OptInt64, LState.OptNumber, LState.OptString,
         LState.OptBool, LState.OptTable, LState.OptFunction, LState.OptUserData, h]
       done)
    | (intro h1 h2 d
       cases hv : ls.get n <;>
         simp_all [LState.OptInt, LState.OptInt64, LState.OptNumber, LState.OptString,
           LState.OptBool, LState.OptTable, LState.OptFunction, LState.OptUserData,
           LValue.typeOf])

theorem Opt_accessors_default_only_on_nil_witness :
    stArgs.OptInt 3 7 = .ok 7 ∧ stArgs.OptInt64 3 7 = .ok 7 ∧
    stArgs.OptNumber 3 7 = .ok 7 ∧ stArgs.OptString 3 "d" = .ok "d" ∧
    stArgs.OptBool 3 true = .ok true ∧ stArgs.OptTable 3 none = .ok none ∧
    stArgs.OptFunction 3 none = .ok none ∧ stArgs.OptUserData 3 none = .ok none ∧
    stArgs.OptInt 1 7 = .error (.raised (stArgs.typeErrorMsg 1 .number)) ∧
    stArgs.OptInt64 1 7 = .error (.raised (stArgs.typeErrorMsg 1 .number)) ∧
    stArgs.OptNumber 1 7 = .error (.raised (stArgs.typeErrorMsg 1 .number)) ∧
    stArgs.OptString 2 "d" = .error (.raised (stArgs.typeErrorMsg 2 .string)) ∧
    stArgs.OptBool 1 true = .error (.raised (stArgs.typeErrorMsg 1 .bool)) ∧
    stArgs.OptTable 1 none = .error (.raised (stArgs.typeErrorMsg 1 .table)) ∧
    stArgs.OptFunction 1 none = .error (.raised (stArgs.typeErrorMsg 1 .func)) ∧
    stArgs.OptUserData 1 none = .error (.raised (stArgs.typeErrorMsg 1 .userdata)) := by
  have h3 := Opt_accessors_default_only_on_nil stArgs 3
  have h1 := Opt_accessors_default_only_on_nil stArgs 1
  have h2 := Opt_accessors_default_only_on_nil stArgs 2
  exact ⟨h3.1.1 (by decide) 7, h3.2.1.1 (by decide) 7, h3.2.2.1.1 (by decide) 7,
    h3.2.2.2.1.1 (by decide) "d", h3.2.2.2.2.1.1 (by decide) true,
    h3.2.2.2.2.2.1.1 (by decide) none, h3.2.2.2.2.2.2.1.1 (by decide) none,
    h3.2.2.2.2.2.2.2.1 (by decide) none,
    h1.1.2 (by decide) (by decide) 7, h1.2.1.2 (by decide) (by decide) 7,
    h1.2.2.1.2 (by decide) (by decide) 7, h2.2.2.2.1.2 (by decide) (by decide) "d",
    h1.2.2.2.2.1.2 (by decide) (by decide) true,
    h1.2.2.2.2.2.1.2 (by decide) (by decide) none,
    h1.2.2.2.2.2.2.1.2 (by decide) (by decide) none,
    h1.2.2.2.2.2.2.2.2 (by decide) (by decide) none⟩

/-! ### C2: CheckAny -/

/-- C2: `CheckAny(n)` raises the ArgumentMissing error for every position
strictly beyond the current arity, and for every position within arity it
returns exactly the stored value, unmodified. -/
theorem CheckAny_missing_or_exact (ls : LState) (n : Nat) :
    (n > ls.getTop → ls.CheckAny n = .error (.raised (ls.argErrorMsg n "value expected"))) ∧
    (∀ v, 1 ≤ n → ls.args[n - 1]? = some v → ls.CheckAny n = .ok v) := by
  constructor
  · intro h
    simp [LState.CheckAny, h]
  · intro v h1 h2
    have hlt : n - 1 < ls.args.length := by
      by_contra hc
      push_neg at hc
      rw [List.getElem?_eq_none hc] at h2
      exact Option.noConfusion h2
    have hle : ¬ n > ls.getTop := by
      simp only [LState.getTop]
      omega
    have hn0 : n ≠ 0 := by omega
    simp [LState.CheckAny, hle, LState.get, hn0, List.getD_eq_getElem?_getD, h2]

theorem CheckAny_missing_or_exact_witness :
    stArgs.CheckAny 3 = .error (.raised (stArgs.argErrorMsg 3 "value expected")) ∧
    stArgs.CheckAny 1 = .ok (.str "a") :=
  ⟨(CheckAny_missing_or_exact stArgs 3).1 (by decide),
   (CheckAny_missing_or_exact stArgs 1).2 (.str "a") (by decide) (by decide)⟩

/-! ### C10: CheckOption -/

theorem optionIndex_eq_none (str : String) :
    ∀ (l : List String) (i : Nat), optionIndex str l i = none ↔ str ∉ l := by
  intro l
  induction l with
  | nil => simp [optionIndex]
  | cons v rest ih =>
    intro i
    by_cases hv : v = str
    · simp [optionIndex, hv]
    · have hsv : ¬ str = v := fun he => hv he.symm
      simp [optionIndex, hv, ih (i + 1), hsv]

theorem optionIndex_spec (str : String) :
    ∀ (l : List String) (i j : Nat), optionIndex str l i = some j →
      i ≤ j ∧ l[j - i]? = some str ∧ ∀ r, r < j - i → l[r]? ≠ some str := by
  intro l
  induction l with
  | nil => intro i j h; exact absurd h (by simp [optionIndex])
  | cons v rest ih =>
    intro i j h
    by_cases hv : v = str
    · rw [optionIndex, if_pos hv] at h
      have hij : i = j := Option.some.inj h
      subst hij
      refine ⟨le_rfl, ?_, ?_⟩
      · simp [Nat.sub_self, hv]
      · intro r hr
        omega
    · rw [optionIndex, if_neg hv] at h
      obtain ⟨h1, h2, h3⟩ := ih (i + 1) j h
      have hd : j - i = (j - (i + 1)) + 1 := by omega
      refine ⟨by omega, ?_, ?_⟩
      · rw [hd]
        simpa using h2
      · intro r hr
        match r with
        | 0 =>
          simp only [List.getElem?_cons_zero]
          intro hc
          exact hv (Option.some.inj hc)
        | r' + 1 =>
          simp only [List.getElem?_cons_succ]
          exact h3 r' (by omega)

theorem optionIndex_of_mem (str : String) :
    ∀ (l : List String) (i : Nat), str ∈ l → ∃ j, optionIndex str l i = some j := by
  intro l
  induction l with
  | nil => intro i h; exact absurd h (List.not_mem_nil str)
  | cons v rest ih =>
    intro i h
    by_cases hv : v = str
    · exact ⟨i, by rw [optionIndex, if_pos hv]⟩
    · have hr : str ∈ rest := by
        rcases List.mem_cons.mp h with he | hr
        · exact absurd he.symm hv
        · exact hr
      obtain ⟨j, hj⟩ := ih (i + 1) hr
      exact ⟨j, by rw [optionIndex, if_neg hv]; exact hj⟩

/-- C10: on an argument that is not of string kind, `CheckOption` raises the
string checker's TypeMismatch error (never the invalid-option error); the
invalid-option error, listing the options joined by commas, is raised only
for string arguments matching none of the options; on a matching string the
result is the 0-based position of the first match. -/
theorem CheckOption_string_gate (ls : LState) (n : Nat) (options : List String) :
    ((ls.get n).typeOf ≠ .string →
      ls.CheckOption n options = .error (.raised (ls.typeErrorMsg n .string))) ∧
    (∀ s, ls.get n = .str s → s ∉ options →
      ls.CheckOption n options = .error (.raised (ls.argErrorMsg n
        ("invalid option: " ++ s ++ " (must be one of " ++
          String.intercalate "," options ++ ")")))) ∧
    (∀ s, ls.get n = .str s → s ∈ options →
      ∃ i, ls.CheckOption n options = .ok i ∧ options[i]? = some s ∧
        ∀ j, j < i → options[j]? ≠ some s) := by
  refine ⟨?_, ?_, ?_⟩
  · intro h
    cases hv : ls.get n <;>
      simp_all [LState.CheckOption, LState.CheckString, LValue.typeOf]
  · intro s hv hmem
    have hnone : optionIndex s options 0 = none := (optionIndex_eq_none s options 0).mpr hmem
    simp [LState.CheckOption, LState.CheckString, hv, hnone]
  · intro s hv hmem
    obtain ⟨j, hj⟩ := optionIndex_of_mem s options 0 hmem
    obtain ⟨-, h2, h3⟩ := optionIndex_spec s options 0 j hj
    refine ⟨j, ?_, by simpa using h2, fun r hr => by simpa using h3 r (by omega)⟩
    simp [LState.CheckOption, LState.CheckString, hv, hj]

theorem CheckOption_string_gate_witness :
    stArgs.CheckOption 2 ["a", "b"] = .error (.raised (stArgs.typeErrorMsg 2 .string)) ∧
    stArgs.CheckOption 1 ["x", "y"] = .error (.raised (stArgs.argErrorMsg 1
      ("invalid option: " ++ "a" ++ " (must be one of " ++
        String.intercalate "," ["x", "y"] ++ ")"))) ∧
    stArgs.CheckOption 1 ["b", "a", "a"] = .ok 1 := by
  refine ⟨(CheckOption_string_gate stArgs 2 ["a", "b"]).1 (by decide),
    (CheckOption_string_gate stArgs 1 ["x", "y"]).2.1 "a" (by decide) (by decide), ?_⟩
  obtain ⟨i, hok, hi, hfirst⟩ :=
    (CheckOption_string_gate stArgs 1 ["b", "a", "a"]).2.2 "a" (by decide) (by decide)
  have hi1 : i = 1 := by
    match i, hi with
    | 0, hx => exact absurd hx (by decide)
    | 1, hx => rfl
    | n + 2, hx =>
      exact absurd (show ¬ (["b", "a", "a"] : List String)[(1 : Nat)]? = some "a" from
        hfirst 1 (by omega)) (by decide)
  rw [hi1] at hok
  exact hok

/-! ### C3: Where -/

/-- C3 counterexample: for a native/host frame that exists at the requested
level, `Where` returns `"[G]:"`, not the empty string the claim demands. -/
theorem Where_native_frame_counterexample :
    stWhere.Where 0 = "[G]:" ∧ stWhere.Where 0 ≠ "" := by decide

/-- C3 (amended): `Where(l)` returns `"<sourceName>:<line>:"` for the frame
`l` levels up from the innermost frame (0 = innermost); it returns the empty
string exactly when no frame exists at that level (the stack is not that
deep); for an existing frame without source information (a native/host
frame) it returns `"[G]:"` — source name `"[G]"` and an empty line part. -/
theorem Where_spec (ls : LState) (level : Nat) :
    (ls.frames[level]? = none → ls.Where level = "") ∧
    (∀ cf, ls.frames[level]? = some cf → cf.proto = none → ls.Where level = "[G]:") ∧
    (∀ cf p, ls.frames[level]? = some cf → cf.proto = some p →
      ls.Where level =
        p.sourceName ++ ":" ++ (toString (p.dbgSourcePositions.getD (cf.pc - 1) 0) ++ ":")) := by
  refine ⟨?_, ?_, ?_⟩
  · intro h
    unfold LState.Where
    rw [h]
  · intro cf hcf hp
    obtain ⟨pr, pcv⟩ := cf
    cases pr with
    | none =>
      unfold LState.Where
      rw [hcf]
      show "[G]" ++ ":" ++ "" = "[G]:"
      decide
    | some p => exact absurd hp (by simp)
  · intro cf p hcf hp
    obtain ⟨pr, pcv⟩ := cf
    cases pr with
    | none => exact absurd hp (by simp)
    | some p2 =>
      have hp2 : p2 = p := by simpa using hp
      subst hp2
      unfold LState.Where
      rw [hcf]

theorem Where_spec_witness :
    stWhere.Where 2 = "" ∧ stWhere.Where 0 = "[G]:" ∧ stWhere.Where 1 = "test.lua:20:" := by
  refine ⟨(Where_spec stWhere 2).1 (by decide),
    (Where_spec stWhere 0).2.1 ⟨none, 1⟩ (by decide) rfl, ?_⟩
  rw [(Where_spec stWhere 1).2.2 ⟨some ⟨"test.lua", [10, 20, 30]⟩, 2⟩
    ⟨"test.lua", [10, 20, 30]⟩ (by decide) rfl]
  decide

/-! ### C4: FindTable creates the path and is idempotent -/

/-- C4: on a root in which the path is entirely absent,
`FindTable(root, "x.y.z", size)` creates exactly the three tables at
`root.x`, `root.x.y`, `root.x.y.z` (heap grows from 1 to 4 tables) and
returns the deepest one; a second call with the same root and path returns
the identical deepest table and changes nothing. -/
theorem FindTable_creates_exactly_and_idempotent (size : Nat) :
    (stFind.FindTable (.table 0) "x.y.z" size).2 = .table 3 ∧
    (stFind.FindTable (.table 0) "x.y.z" size).1.tables.length = 4 ∧
    (stFind.FindTable (.table 0) "x.y.z" size).1.rawGet 0 (.str "x") = .table 1 ∧
    (stFind.FindTable (.table 0) "x.y.z" size).1.rawGet 1 (.str "y") = .table 2 ∧
    (stFind.FindTable (.table 0) "x.y.z" size).1.rawGet 2 (.str "z") = .table 3 ∧
    (stFind.FindTable (.table 0) "x.y.z" size).1.FindTable (.table 0) "x.y.z" size
      = ((stFind.FindTable (.table 0) "x.y.z" size).1, .table 3) :=
  ⟨rfl, rfl, rfl, rfl, rfl, rfl⟩

/-! ### C5: a Nil result of FindTable leaves the state untouched -/

/-- Step equation of the walk: a missing segment allocates a fresh table,
links it under the parent and descends into it. -/
theorem findTableAux_cons_create (ls : LState) (t : Nat) (name : String)
    (rest : List String) (h : ls.rawGet t (.str name) = .nil) :
    ls.findTableAux (.table t) (name :: rest) =
      ((ls.createTable.1.rawSet t (.str name) (.table ls.createTable.2)).findTableAux
        (.table ls.createTable.2) rest) := by
  conv_lhs => unfold LState.findTableAux
  dsimp only
  rw [if_pos h]

/-- Step equation of the walk: an existing table segment is descended into
without any write. -/
theorem findTableAux_cons_descend (ls : LState) (t : Nat) (name : String)
    (rest : List String) (w : Nat) (h : ls.rawGet t (.str name) = .table w) :
    ls.findTableAux (.table t) (name :: rest) = ls.findTableAux (.table w) rest := by
  conv_lhs => unfold LState.findTableAux
  dsimp only
  rw [h]
  simp [LValue.typeOf]

/-- Step equation of the walk: an existing non-table segment stops the walk
with Nil and no write. -/
theorem findTableAux_cons_stop (ls : LState) (t : Nat) (name : String)
    (rest : List String) (h1 : ls.rawGet t (.str name) ≠ .nil)
    (h2 : (ls.rawGet t (.str name)).typeOf ≠ .table) :
    ls.findTableAux (.table t) (name :: rest) = (ls, .nil) := by
  conv_lhs => unfold LState.findTableAux
  dsimp only
  rw [if_neg h1, if_neg h2]

theorem zoneInv_trivial (ls : LState) : zoneInv ls ls.tables.length := by
  intro u k hu
  exact Or.inl (ls.rawGet_eq_of_none u k (List.getElem?_eq_none hu))

theorem rawGet_append (ls : LState) (u : Nat) (k : LValue) :
    ls.createTable.1.rawGet u k = .nil ∨ ls.createTable.1.rawGet u k = ls.rawGet u k := by
  rcases Nat.lt_trichotomy u ls.tables.length with hlt | heq | hgt
  · right
    unfold LState.createTable LState.rawGet
    rw [List.getElem?_append_left hlt]
  · left
    have hsome : ls.createTable.1.tables[u]? = some ⟨[], none⟩ := by
      show (ls.tables ++ [⟨[], none⟩])[u]? = some ⟨[], none⟩
      rw [heq]
      exact List.getElem?_concat_length ls.tables ⟨[], none⟩
    rw [LState.rawGet_eq_of_some _ u k ⟨[], none⟩ hsome]
    rfl
  · left
    refine LState.rawGet_eq_of_none _ u k (List.getElem?_eq_none ?_)
    simp only [LState.createTable, List.length_append, List.length_cons, List.length_nil]
    omega

theorem zoneInv_createTable (ls : LState) (N : Nat) (h : zoneInv ls N) :
    zoneInv ls.createTable.1 N := by
  intro u k hu
  rcases rawGet_append ls u k with hn | he
  · exact Or.inl hn
  · rw [he]
    exact h u k hu

theorem zoneInv_rawSet_table (ls : LState) (N t w : Nat) (k : LValue)
    (h : zoneInv ls N) (hw : N ≤ w) : zoneInv (ls.rawSet t k (.table w)) N := by
  intro u k₂ hu
  by_cases hut : u = t
  · subst hut
    by_cases hk : k₂ = k
    · subst hk
      cases ho : ls.tables[u]? with
      | none =>
        rw [ls.rawSet_eq_of_none u k₂ (.table w) ho]
        exact h u k₂ hu
      | some o =>
        rw [ls.rawGet_rawSet_self u k₂ (.table w) o ho]
        exact Or.inr ⟨w, rfl, hw⟩
    · rw [ls.rawGet_rawSet_ne_key u k (.table w) k₂ hk]
      exact h u k₂ hu
  · rw [ls.rawGet_rawSet_ne_tbl t k (.table w) u k₂ hut]
    exact h u k₂ hu

/-- From inside the create-only zone, the walk always ends on a table: every
segment read in the zone is Nil (then a fresh zone table is created) or a
zone table (then it descends), never a non-table value. -/
theorem findTableAux_zone :
    ∀ (names : List String) (ls : LState) (c N : Nat),
      N ≤ c → N ≤ ls.tables.length → zoneInv ls N →
      ∃ w, (ls.findTableAux (.table c) names).2 = .table w := by
  intro names
  induction names with
  | nil =>
    intro ls c N _ _ _
    exact ⟨c, rfl⟩
  | cons name rest ih =>
    intro ls c N hc hlen hinv
    rcases hinv c (.str name) hc with hnil | ⟨w, hw, hNw⟩
    · rw [findTableAux_cons_create ls c name rest hnil]
      refine ih _ ls.createTable.2 N ?_ ?_ ?_
      · exact le_trans hlen (le_of_eq rfl)
      · rw [LState.rawSet_tables_length]
        simp only [LState.createTable, List.length_append, List.length_cons, List.length_nil]
        omega
      · exact zoneInv_rawSet_table _ N c ls.createTable.2 (.str name)
          (zoneInv_createTable ls N hinv) hlen
    · rw [findTableAux_cons_descend ls c name rest w hw]
      exact ih ls w N hNw hlen hinv

/-- Whenever the walk returns Nil, the state is returned untouched: a
non-table value can only be met on a segment that already existed, before
anything was written. -/
theorem findTableAux_nil_id :
    ∀ (names : List String) (ls : LState) (cur : LValue),
      (ls.findTableAux cur names).2 = .nil → (ls.findTableAux cur names).1 = ls := by
  intro names
  induction names with
  | nil =>
    intro ls cur _
    rfl
  | cons name rest ih =>
    intro ls cur h
    cases cur with
    | table t =>
      by_cases hn : ls.rawGet t (.str name) = .nil
      · exfalso
        rw [findTableAux_cons_create ls t name rest hn] at h
        obtain ⟨w, hw⟩ := findTableAux_zone rest
          (ls.createTable.1.rawSet t (.str name) (.table ls.createTable.2))
          ls.createTable.2 ls.tables.length le_rfl
          (by
            rw [LState.rawSet_tables_length]
            simp only [LState.createTable, List.length_append, List.length_cons,
              List.length_nil]
            omega)
          (zoneInv_rawSet_table _ ls.tables.length t ls.createTable.2 (.str name)
            (zoneInv_createTable ls ls.tables.length (zoneInv_trivial ls)) le_rfl)
        rw [hw] at h
        exact LValue.noConfusion h
      · by_cases ht : (ls.rawGet t (.str name)).typeOf = .table
        · cases hv : ls.rawGet t (.str name) with
          | table w =>
            rw [findTableAux_cons_descend ls t name rest w hv] at h ⊢
            exact ih ls (.table w) h
          | nil => exact absurd hv hn
          | bool b => rw [hv] at ht; exact absurd ht (by simp [LValue.typeOf])
          | number x => rw [hv] at ht; exact absurd ht (by simp [LValue.typeOf])
          | str s => rw [hv] at ht; exact absurd ht (by simp [LValue.typeOf])
          | func f => rw [hv] at ht; exact absurd ht (by simp [LValue.typeOf])
          | userdata u => rw [hv] at ht; exact absurd ht (by simp [LValue.typeOf])
          | thread th => rw [hv] at ht; exact absurd ht (by simp [LValue.typeOf])
        · rw [findTableAux_cons_stop ls t name rest hn ht]
    | nil => rfl
    | bool b => rfl
    | number x => rfl
    | str s => rfl
    | func f => rfl
    | userdata u => rfl
    | thread th => rfl

/-- C5: whenever a `FindTable` walk meets an existing non-table value, the
result is Nil and the state is exactly the input state — no slot of any
table was overwritten (a Nil result is only produced by such a walk, or by
a non-table root, which also writes nothing). -/
theorem FindTable_nil_no_write (ls : LState) (obj : LValue) (path : String) (size : Nat)
    (h : (ls.FindTable obj path size).2 = .nil) :
    (ls.FindTable obj path size).1 = ls :=
  findTableAux_nil_id (splitDots path) ls obj h

theorem FindTable_nil_no_write_witness :
    (stFindDead.FindTable (.table 0) "x.y" 4).2 = .nil ∧
    (stFindDead.FindTable (.table 0) "x.y" 4).1 = stFindDead ∧
    stFindDead.rawGet 0 (.str "x") = .number 5 :=
  ⟨by decide, FindTable_nil_no_write stFindDead (.table 0) "x.y" 4 (by decide), by decide⟩

/-! ### C8: CallMeta -/

/-- C8: `CallMeta` looks up the metafield of the value; when that field is a
callable (function) value it is invoked with the value as sole argument
under the normal call collaborator and the invocation's first result is
returned; in every other case — no metatable, no such field, or a
non-callable field — the result is Nil and nothing is invoked. -/
theorem CallMeta_invokes_or_nil (ls : LState) (call : CallOracle) (obj : LValue)
    (event : String) :
    (∀ f, ls.metaOp1 obj event = .func f → ls.CallMeta call obj event = call ls f obj) ∧
    ((ls.metaOp1 obj event).typeOf ≠ .func → ls.CallMeta call obj event = .ok (ls, .nil)) := by
  constructor
  · intro f h
    simp [LState.CallMeta, h]
  · intro h
    cases hv : ls.metaOp1 obj event <;> simp_all [LState.CallMeta, LValue.typeOf]

theorem CallMeta_invokes_or_nil_witness :
    stMeta.CallMeta callConst (.table 0) "__tostring" = .ok (stMeta, .str "S") ∧
    stMeta.CallMeta callConst (.table 0) "__gc" = .ok (stMeta, .nil) := by
  constructor
  · rw [(CallMeta_invokes_or_nil stMeta callConst (.table 0) "__tostring").1 7 (by decide)]
    rfl
  · exact (CallMeta_invokes_or_nil stMeta callConst (.table 0) "__gc").2 (by decide)

/-! ### C9: DoString / DoFile error channelling -/

/-- C9: when compilation fails, the compile error is returned directly and
nothing of the chunk runs (the state is the input state); when compilation
succeeds and execution raises a script runtime error, the protected call
catches it and returns it as an ordinary error value — `DoString` is total,
so no raised error ever propagates to the caller. -/
theorem DoString_error_paths (ls : LState) (comp : Compiler) (exec : Executor)
    (source : String) :
    (∀ e, comp source = .error e → ls.DoString comp exec source = (ls, some e)) ∧
    (∀ fn ls2 m, comp source = .ok fn → exec ls fn = (ls2, some (.raised m)) →
      ls.DoString comp exec source = (ls2, some ⟨.runError, m⟩)) := by
  constructor
  · intro e h
    simp [LState.DoString, h]
  · intro fn ls2 m h1 h2
    simp [LState.DoString, pcallRun, h1, h2]

theorem DoString_error_paths_witness :
    stArgs.DoString compReject execBoom "1+" = (stArgs, some ⟨.syntaxError, "parse error"⟩) ∧
    stArgs.DoString compAccept execBoom "error(boom)" = (stArgs, some ⟨.runError, "boom"⟩) :=
  ⟨(DoString_error_paths stArgs compReject execBoom "1+").1 ⟨.syntaxError, "parse error"⟩ rfl,
   (DoString_error_paths stArgs compAccept execBoom "error(boom)").2 0 stArgs "boom" rfl rfl⟩

/-! ### C6/C7: RegisterModule -/

theorem LState.tables_rawSet_self (ls : LState) (t : Nat) (k v : LValue) (o : TableObj)
    (h : ls.tables[t]? = some o) :
    (ls.rawSet t k v).tables[t]? = some ⟨rawSetList o.entries k v, o.meta⟩ := by
  have hlt : t < ls.tables.length := getElem?_some_lt _ _ _ h
  rw [ls.rawSet_eq_of_some t k v o h]
  simpa using List.getElem?_set_eq_of_lt _ hlt

theorem installFuncs_cons (ls : LState) (tid : Nat) (k : String) (fn : Nat)
    (rest : List (String × Nat)) :
    ls.installFuncs tid ((k, fn) :: rest) =
      ((ls.newFunction fn).1.rawSet tid (.str k) (.func ls.nextFn)).installFuncs tid rest := rfl

theorem installFuncs_tables_other :
    ∀ (F : List (String × Nat)) (ls : LState) (tid t : Nat), t ≠ tid →
      (ls.installFuncs tid F).tables[t]? = ls.tables[t]? := by
  intro F
  induction F with
  | nil => intro ls tid t _; rfl
  | cons p rest ih =>
    intro ls tid t h
    obtain ⟨k, fn⟩ := p
    rw [installFuncs_cons, ih _ tid t h,
      LState.tables_rawSet_ne _ tid (.str k) (.func ls.nextFn) t h]
    rfl

theorem installFuncs_fields :
    ∀ (F : List (String × Nat)) (ls : LState) (tid : Nat),
      (ls.installFuncs tid F).registry = ls.registry ∧
      (ls.installFuncs tid F).globals = ls.globals ∧
      (ls.installFuncs tid F).args = ls.args ∧
      (ls.installFuncs tid F).fname = ls.fname := by
  intro F
  induction F with
  | nil => intro ls tid; exact ⟨rfl, rfl, rfl, rfl⟩
  | cons p rest ih =>
    intro ls tid
    obtain ⟨k, fn⟩ := p
    rw [installFuncs_cons]
    obtain ⟨h1, h2, h3, h4⟩ :=
      ih ((ls.newFunction fn).1.rawSet tid (.str k) (.func ls.nextFn)) tid
    obtain ⟨-, ha, hf, hr, hg, -⟩ :=
      LState.rawSet_fields (ls.newFunction fn).1 tid (.str k) (.func ls.nextFn)
    exact ⟨by rw [h1, hr]; rfl, by rw [h2, hg]; rfl, by rw [h3, ha]; rfl,
      by rw [h4, hf]; rfl⟩

theorem installFuncs_keeps_func :
    ∀ (F : List (String × Nat)) (ls : LState) (tid : Nat) (k : LValue),
      (ls.rawGet tid k).typeOf = .func →
      ((ls.installFuncs tid F).rawGet tid k).typeOf = .func := by
  intro F
  induction F with
  | nil => intro ls tid k h; exact h
  | cons p rest ih =>
    intro ls tid k h
    obtain ⟨k', fn'⟩ := p
    rw [installFuncs_cons]
    refine ih _ tid k ?_
    by_cases hk : k = .str k'
    · subst hk
      cases ho : (ls.newFunction fn').1.tables[tid]? with
      | none =>
        rw [LState.rawSet_eq_of_none _ tid (.str k') (.func ls.nextFn) ho]
        exact h
      | some o =>
        rw [LState.rawGet_rawSet_self _ tid (.str k') (.func ls.nextFn) o ho]
        rfl
    · rw [LState.rawGet_rawSet_ne_key _ tid (.str k') (.func ls.nextFn) k hk]
      exact h

theorem installFuncs_mem_func :
    ∀ (F : List (String × Nat)) (ls : LState) (tid : Nat) (o : TableObj),
      ls.tables[tid]? = some o →
      ∀ k fn, (k, fn) ∈ F → ((ls.installFuncs tid F).rawGet tid (.str k)).typeOf = .func := by
  intro F
  induction F with
  | nil =>
    intro ls tid o _ k fn hmem
    exact absurd hmem (List.not_mem_nil (k, fn))
  | cons p rest ih =>
    intro ls tid o ho k fn hmem
    obtain ⟨k', fn'⟩ := p
    rw [installFuncs_cons]
    have hox : (ls.newFunction fn').1.tables[tid]? = some o := ho
    rcases List.mem_cons.mp hmem with heq | hrest
    · have hk : k = k' := (Prod.mk.injEq k fn k' fn').mp heq |>.1
      subst hk
      refine installFuncs_keeps_func rest _ tid (.str k) ?_
      rw [LState.rawGet_rawSet_self _ tid (.str k) (.func ls.nextFn) o hox]
      rfl
    · exact ih _ tid ⟨rawSetList o.entries (.str k') (.func ls.nextFn), o.meta⟩
        (LState.tables_rawSet_self _ tid (.str k') (.func ls.nextFn) o hox) k fn hrest

/-- C6: on a fresh runtime, registering a module twice under the same name
returns the identical table both times; the function set is installed by the
first call, and the second call changes nothing — neither the state nor the
returned table. -/
theorem RegisterModule_idempotent (F : List (String × Nat)) (st1 : LState) (v : LValue)
    (h : stReg.RegisterModule "foo" F = .ok (st1, v)) :
    v = .table 3 ∧ st1.RegisterModule "foo" F = .ok (st1, v) ∧
    ∀ k fn, (k, fn) ∈ F → (st1.rawGet 3 (.str k)).typeOf = .func := by
  have hfirst : stReg.RegisterModule "foo" F =
      .ok ((stRegMid.installFuncs 3 F).rawSet 2 (.str "foo") (.table 3), .table 3) := rfl
  rw [hfirst] at h
  have hpair := Except.ok.inj h
  rw [Prod.mk.injEq] at hpair
  obtain ⟨hst, hv⟩ := hpair
  subst hst
  subst hv
  have h2some : (stRegMid.installFuncs 3 F).tables[2]? = some ⟨[], none⟩ := by
    rw [installFuncs_tables_other F stRegMid 3 2 (by decide)]
    rfl
  refine ⟨rfl, ?_, ?_⟩
  · -- the second call returns the same table and leaves the state unchanged
    have hregA : ((stRegMid.installFuncs 3 F).rawSet 2 (.str "foo") (.table 3)).registry = 0 := by
      obtain ⟨-, -, -, hr, -, -⟩ :=
        LState.rawSet_fields (stRegMid.installFuncs 3 F) 2 (.str "foo") (.table 3)
      rw [hr, (installFuncs_fields F stRegMid 3).1]
      rfl
    have hldA : ((stRegMid.installFuncs 3 F).rawSet 2 (.str "foo") (.table 3)).rawGet 0
        (.str "_LOADED") = .table 2 := by
      rw [LState.rawGet_rawSet_ne_tbl _ 2 (.str "foo") (.table 3) 0 (.str "_LOADED")
        (by decide)]
      unfold LState.rawGet
      rw [installFuncs_tables_other F stRegMid 3 0 (by decide)]
      rfl
    have hFTA : ((stRegMid.installFuncs 3 F).rawSet 2 (.str "foo") (.table 3)).FindTable
        (.table 0) "_LOADED" 1 =
        ((stRegMid.installFuncs 3 F).rawSet 2 (.str "foo") (.table 3), .table 2) := by
      show ((stRegMid.installFuncs 3 F).rawSet 2 (.str "foo") (.table 3)).findTableAux
        (.table 0) ["_LOADED"] = _
      rw [findTableAux_cons_descend _ 0 "_LOADED" [] 2 hldA]
      rfl
    have hfooA : ((stRegMid.installFuncs 3 F).rawSet 2 (.str "foo") (.table 3)).rawGet 2
        (.str "foo") = .table 3 :=
      LState.rawGet_rawSet_self _ 2 (.str "foo") (.table 3) ⟨[], none⟩ h2some
    simp only [LState.RegisterModule, hregA, hFTA, LState.getField, hfooA, LValue.typeOf]
    simp
  · intro k fn hmem
    rw [LState.rawGet_rawSet_ne_tbl _ 2 (.str "foo") (.table 3) 3 (.str k) (by decide)]
    exact installFuncs_mem_func F stRegMid 3 ⟨[], none⟩ rfl k fn hmem

theorem RegisterModule_idempotent_witness :
    stReg.RegisterModule "foo" [("f", 5)] =
      .ok ((stRegMid.installFuncs 3 [("f", 5)]).rawSet 2 (.str "foo") (.table 3), .table 3) ∧
    ((stRegMid.installFuncs 3 [("f", 5)]).rawSet 2 (.str "foo")
        (.table 3)).RegisterModule "foo" [("f", 5)] =
      .ok ((stRegMid.installFuncs 3 [("f", 5)]).rawSet 2 (.str "foo") (.table 3), .table 3) ∧
    (((stRegMid.installFuncs 3 [("f", 5)]).rawSet 2 (.str "foo") (.table 3)).rawGet 3
        (.str "f")).typeOf = .func := by
  have h := RegisterModule_idempotent [("f", 5)]
    ((stRegMid.installFuncs 3 [("f", 5)]).rawSet 2 (.str "foo") (.table 3)) (.table 3) rfl
  exact ⟨rfl, h.2.1, h.2.2 "f" 5 (by decide)⟩

/-- C7: when no table is recorded for the module name in `_LOADED` and the
global namespace slot for that name holds a non-table value, `RegisterModule`
raises an error whose message is exactly
`name conflict for module(<name>)`. -/
theorem RegisterModule_conflict (g : LValue) (funcs : List (String × Nat))
    (hg0 : g ≠ .nil) (hg1 : g.typeOf ≠ .table) :
    (stConflictG g).RegisterModule "foo" funcs =
      .error (.raised "name conflict for module(foo)") := by
  have hFT1 : (stConflictG g).FindTable (.table (stConflictG g).registry) "_LOADED" 1 =
      (stConflictMid g, .table 2) := rfl
  have hrg : (stConflictMid g).rawGet 1 (.str "foo") = g := rfl
  have hFT2 : (stConflictMid g).FindTable (.table (stConflictMid g).globals) "foo"
      funcs.length = (stConflictMid g, .nil) := by
    show (stConflictMid g).findTableAux (.table 1) (splitDots "foo") = _
    rw [show splitDots "foo" = ["foo"] from rfl]
    exact findTableAux_cons_stop _ 1 "foo" []
      (by rw [hrg]; exact hg0) (by rw [hrg]; exact hg1)
  simp only [LState.RegisterModule, hFT1]
  simp only [show (stConflictMid g).getField (.table 2) "foo" = LValue.nil from rfl,
    LValue.typeOf]
  simp only [hFT2]
  simp

theorem RegisterModule_conflict_witness :
    (stConflictG (.number 1)).RegisterModule "foo" [] =
      .error (.raised "name conflict for module(foo)") :=
  RegisterModule_conflict (.number 1) [] (by decide) (by decide)

end GopherLua
